import Mathlib

/-!
Verification of the JSON Resume → RenderCV converter
(`jsonresume_to_rendercv/converter.py`).

The converter manipulates parsed JSON/YAML documents (Python dicts, lists,
strings, numbers, booleans, None).  We embed those values as `JValue`,
with objects as insertion-ordered association lists, mirroring Python
dicts.  Fallible Python operations (`d[k]`, iteration, `len`, `", ".join`)
become `Except String` computations; an `Except.error` models an uncaught
Python exception (KeyError / TypeError / AttributeError) aborting the run.
-/

set_option maxHeartbeats 1000000

inductive JValue where
  | null
  | bool (b : Bool)
  | num (n : Int)
  | str (s : String)
  | arr (xs : List JValue)
  | obj (fields : List (String × JValue))

/-- Python truthiness (`bool(v)`) on embedded values. -/
def truthy : JValue → Bool
  | .null => false
  | .bool b => b
  | .num n => n != 0
  | .str s => s != ""
  | .arr xs => !xs.isEmpty
  | .obj fs => !fs.isEmpty

/-- Dictionary membership / lookup without failure: `some v` when `x` is a
dict containing key `k`, `none` otherwise (also when `x` is not a dict). -/
def pyGet? (x : JValue) (k : String) : Option JValue :=
  match x with
  | .obj fs => fs.lookup k
  | _ => none

/-- Python `x.get(k, d)`.  The converter only ever calls `.get` on values it
has already subscripted successfully (hence dicts), so totalising the
non-dict case to the default is unreachable in every modelled trace. -/
def pyGetD (x : JValue) (k : String) (d : JValue) : JValue :=
  (pyGet? x k).getD d

/-- Python `x[k]` for a string key: KeyError when absent, TypeError when `x`
is not a dict; both surface as uncaught exceptions. -/
def getItem (x : JValue) (k : String) : Except String JValue :=
  match x with
  | .obj fs =>
    match fs.lookup k with
    | some v => .ok v
    | none => .error ("KeyError: " ++ k)
  | _ => .error ("TypeError: value is not subscriptable at key " ++ k)

/-- Python iteration `for x in v`: lists yield elements, strings yield
one-character strings, dicts yield their keys; other values raise. -/
def pyIter : JValue → Except String (List JValue)
  | .arr xs => .ok xs
  | .str s => .ok (s.toList.map (fun c => JValue.str (String.singleton c)))
  | .obj fs => .ok (fs.map (fun p => JValue.str p.1))
  | _ => .error "TypeError: value is not iterable"

/-- Python `len(v)`. -/
def pyLen : JValue → Except String Nat
  | .str s => .ok s.length
  | .arr xs => .ok xs.length
  | .obj fs => .ok fs.length
  | _ => .error "TypeError: value has no len"

/-- Helper: a single-quote string, used by the Python `repr` rendering. -/
def pyQuote : String := (Char.ofNat 39).toString

mutual
/-- Python `repr(v)` for embedded values (string escaping inside quotes is
not modelled; no theorem depends on it). -/
def pyRepr : JValue → String
  | .null => "None"
  | .bool b => if b then "True" else "False"
  | .num n => toString n
  | .str s => pyQuote ++ s ++ pyQuote
  | .arr xs => "[" ++ pyReprList xs ++ "]"
  | .obj fs => "\x7b" ++ pyReprObj fs ++ "\x7d"
/-- Comma-separated `repr`s of list elements. -/
def pyReprList : List JValue → String
  | [] => ""
  | [x] => pyRepr x
  | x :: y :: rest => pyRepr x ++ ", " ++ pyReprList (y :: rest)
/-- Comma-separated `repr`s of dict items. -/
def pyReprObj : List (String × JValue) → String
  | [] => ""
  | [(k, v)] => pyQuote ++ k ++ pyQuote ++ ": " ++ pyRepr v
  | (k, v) :: q :: rest =>
      pyQuote ++ k ++ pyQuote ++ ": " ++ pyRepr v ++ ", " ++ pyReprObj (q :: rest)
end

/-- Python `str(v)` (as used by f-string interpolation in
`format_location`). -/
def pyStr : JValue → String
  | .str s => s
  | v => pyRepr v

/-- Sequencing of fallible steps; `ebind x f` is Python control flow where
an exception in `x` propagates. -/
def ebind {α β : Type} (x : Except String α) (f : α → Except String β) : Except String β :=
  match x with
  | .error e => .error e
  | .ok a => f a

/-- Collect the elements of `xs` as strings, raising when one is not a
string (the TypeError of `", ".join` on a non-string element). -/
def strElems : List JValue → Except String (List String)
  | [] => .ok []
  | .str s :: rest => ebind (strElems rest) (fun r => .ok (s :: r))
  | _ :: _ => .error "TypeError: join expected str instance"

/-- Python `", ".join(v)`: joins the string elements of a list, the
one-character strings of a string, or the keys of a dict. -/
def pyJoinComma (v : JValue) : Except String String :=
  match v with
  | .arr xs => ebind (strElems xs) (fun parts => .ok (String.intercalate ", " parts))
  | .str s => .ok (String.intercalate ", " (s.toList.map String.singleton))
  | .obj fs => .ok (String.intercalate ", " (fs.map (fun p => p.1)))
  | _ => .error "TypeError: join argument is not iterable"

/-! ## The converter's network table (`JSONResumeConverter.networks`) -/

def networks : List (String × String) :=
  [("github", "GitHub"),
   ("gitlab", "GitLab"),
   ("google_scholar", "Google Scholar"),
   ("instagram", "Instagram"),
   ("linkedin", "LinkedIn"),
   ("mastodon", "Mastodon"),
   ("orcid", "ORCID"),
   ("research_gate", "ResearchGate"),
   ("stackoverflow", "StackOverflow"),
   ("youtube", "YouTube")]

def default_network : String := "github"

/-- Python `self.networks.get(x)`: `none` for a hashable non-member,
TypeError for an unhashable key (list/dict). -/
def networksGet (x : JValue) : Except String (Option String) :=
  match x with
  | .arr _ => .error "TypeError: unhashable type"
  | .obj _ => .error "TypeError: unhashable type"
  | .str s => .ok (networks.lookup s)
  | _ => .ok none

/-- A Python `str`-or-`None` value, as produced by `dict.get`. -/
def optToJ : Option String → JValue
  | some s => .str s
  | none => .null

def fallbackMsg : String := "Falling back to default network: " ++ default_network

/-! ## Per-section formatting methods, translated from `converter.py` -/

/-- `format_location` (converter.py lines 72–75). -/
def format_location (location : JValue) : Except String JValue :=
  if truthy location then
    ebind (getItem location "city") fun city =>
    ebind (getItem location "countryCode") fun cc =>
    .ok (.str (pyStr city ++ ", " ++ pyStr cc))
  else
    .ok (.str "")

/-- Loop body of `format_social_networks` (converter.py lines 77–91):
returns the built entries together with the diagnostic lines printed. -/
def socialLoop : List JValue → Except String (List JValue × List String)
  | [] => .ok ([], [])
  | p :: rest =>
    ebind (getItem p "network") fun nv =>
    ebind (networksGet nv) fun nopt =>
    let n0 := optToJ nopt
    let n1 := if truthy n0 then n0 else optToJ (networks.lookup default_network)
    let notes : List String := if truthy n0 then [] else [fallbackMsg]
    ebind (getItem p "username") fun uv =>
    ebind (socialLoop rest) fun r =>
    .ok (JValue.obj [("network", n1), ("username", uv)] :: r.1, notes ++ r.2)

/-- `format_social_networks` applied to the (possibly defaulted) profiles
value. -/
def format_social_networks (profiles : JValue) : Except String (List JValue × List String) :=
  ebind (pyIter profiles) socialLoop

/-- List-comprehension plumbing: map a fallible per-entry transform over the
entries, propagating the first exception. -/
def mapE (f : JValue → Except String JValue) : List JValue → Except String (List JValue)
  | [] => .ok []
  | x :: rest =>
    ebind (f x) fun y =>
    ebind (mapE f rest) fun ys =>
    .ok (y :: ys)

/-- Entry transform of `format_education` (converter.py lines 93–104). -/
def format_edu_entry (edu : JValue) : Except String JValue :=
  ebind (getItem edu "institution") fun institution =>
  ebind (getItem edu "area") fun area =>
  ebind (getItem edu "studyType") fun degree =>
  ebind (getItem edu "startDate") fun sd =>
  .ok (.obj [("institution", institution), ("area", area), ("degree", degree),
             ("start_date", sd),
             ("end_date", pyGetD edu "endDate" (.str "present")),
             ("location", pyGetD edu "location" (.str ""))])

def format_education (education : JValue) : Except String (List JValue) :=
  ebind (pyIter education) (mapE format_edu_entry)

/-- Entry transform of `format_experience` (converter.py lines 106–117). -/
def format_exp_entry (job : JValue) : Except String JValue :=
  ebind (getItem job "name") fun company =>
  ebind (getItem job "position") fun position =>
  ebind (getItem job "startDate") fun sd =>
  .ok (.obj [("company", company), ("position", position),
             ("location", pyGetD job "location" (.str "")),
             ("start_date", sd),
             ("end_date", pyGetD job "endDate" (.str "present")),
             ("highlights", pyGetD job "highlights" (.arr []))])

def format_experience (work : JValue) : Except String (List JValue) :=
  ebind (pyIter work) (mapE format_exp_entry)

/-- Entry transform of `format_publications` (converter.py lines 119–136);
`doi` and `url` are appended only when present and truthy. -/
def format_pub_entry (pub : JValue) : Except String JValue :=
  ebind (getItem pub "name") fun title =>
  ebind (getItem pub "releaseDate") fun date =>
  let base := [("title", title),
               ("authors", pyGetD pub "authors" (.arr [])),
               ("date", date),
               ("journal", pyGetD pub "publisher" (.str ""))]
  let base := if truthy (pyGetD pub "doi" .null)
              then base ++ [("doi", pyGetD pub "doi" .null)] else base
  let base := if truthy (pyGetD pub "url" .null)
              then base ++ [("url", pyGetD pub "url" .null)] else base
  .ok (.obj base)

def format_publications (publications : JValue) : Except String (List JValue) :=
  ebind (pyIter publications) (mapE format_pub_entry)

/-- Entry transform of `format_projects` (converter.py lines 138–147):
`highlights` is `[description]` when a `description` key exists, else the
entry's own `highlights` (KeyError when neither exists). -/
def format_proj_entry (proj : JValue) : Except String JValue :=
  ebind (getItem proj "name") fun name =>
  ebind (getItem proj "startDate") fun sd =>
  ebind (match pyGet? proj "description" with
         | some d => .ok (JValue.arr [d])
         | none => getItem proj "highlights") fun hl =>
  .ok (.obj [("name", name), ("start_date", sd),
             ("end_date", pyGetD proj "endDate" (.str "present")),
             ("highlights", hl)])

def format_projects (projects : JValue) : Except String (List JValue) :=
  ebind (pyIter projects) (mapE format_proj_entry)

/-- Entry transform of `format_awards` (converter.py lines 149–152). -/
def format_awd_entry (award : JValue) : Except String JValue :=
  ebind (getItem award "title") fun label =>
  ebind (getItem award "awarder") fun details =>
  .ok (.obj [("label", label), ("details", details)])

def format_awards (awards : JValue) : Except String (List JValue) :=
  ebind (pyIter awards) (mapE format_awd_entry)

/-- The comparison `skill["name"] == target` of the generator expressions in
`format_technologies`: Python equality of an arbitrary value against a
string literal. -/
def isNameMatch (n : JValue) (target : String) : Bool :=
  match n with
  | .str s => s == target
  | _ => false

/-- One generator of `format_technologies` (converter.py lines 155–163):
`next((skill["keywords"] for skill in skills if skill["name"] == target), [])`.
It evaluates `skill["name"]` for every scanned entry and `skill["keywords"]`
only for the first match; the default is the empty list. -/
def findKeywords (skills : List JValue) (target : String) : Except String JValue :=
  match skills with
  | [] => .ok (.arr [])
  | s :: rest =>
    ebind (getItem s "name") fun n =>
    if isNameMatch n target then getItem s "keywords"
    else findKeywords rest target

def techEntry (label details : String) : JValue :=
  .obj [("label", .str label), ("details", .str details)]

/-- `format_technologies` (converter.py lines 154–168). -/
def format_technologies (skills : JValue) : Except String (List JValue) :=
  ebind (pyIter skills) fun sks =>
  ebind (findKeywords sks "Programming Languages") fun languages =>
  ebind (findKeywords sks "Frameworks") fun frameworks =>
  ebind (findKeywords sks "Miscellaneous") fun misc =>
  ebind (pyJoinComma languages) fun dl =>
  ebind (pyJoinComma frameworks) fun df =>
  ebind (pyJoinComma misc) fun dm =>
  .ok [techEntry "Languages" dl, techEntry "Software" df, techEntry "Miscellaneous" dm]

/-! ## Constructor `JSONResumeConverter.__init__` (converter.py lines 33–70)

The constructor builds the `cv` dict, the sections dict (in literal order),
drops sections of zero length, installs the surviving sections, and finally
drops every falsy top-level `cv` field. -/

/-- The seven-entry sections dict literal of `__init__` (lines 50–60), in
source order. -/
def sectionsList (summary : JValue) (edus exps pubs projs techs awds : List JValue) :
    List (String × JValue) :=
  [("summary", summary),
   ("education", .arr edus),
   ("experience", .arr exps),
   ("publications", .arr pubs),
   ("projects", .arr projs),
   ("technologies", .arr techs),
   ("awards", .arr awds)]

/-- The loop `for key, section in sections.items(): if len(section) > 0: ...`
(lines 62–65): keeps entries of positive length, raising when a value has no
`len`. -/
def filterLen : List (String × JValue) → Except String (List (String × JValue))
  | [] => .ok []
  | (k, v) :: rest =>
    ebind (pyLen v) fun n =>
    ebind (filterLen rest) fun r =>
    .ok (if 0 < n then (k, v) :: r else r)

/-- The `cv` dict literal of lines 36–48, with the filled sections dict in
place of the initial empty one (the only mutation of `sections` before the
falsy-field sweep). -/
def cvFields (name location email phone website : JValue) (sns : List JValue)
    (nonEmpty : List (String × JValue)) : List (String × JValue) :=
  [("name", name), ("location", location), ("email", email), ("phone", phone),
   ("website", website), ("social_networks", .arr sns), ("sections", .obj nonEmpty)]

/-- The falsy-field sweep of lines 67–70 applied to the assembled `cv`. -/
def assembleCv (name location email phone website : JValue) (sns : List JValue)
    (nonEmpty : List (String × JValue)) : List (String × JValue) :=
  (cvFields name location email phone website sns nonEmpty).filter (fun p => truthy p.2)

/-- Result of a successful construction: the `render_cv` attribute and the
diagnostic lines printed while building it. -/
structure ConvOut where
  render_cv : JValue
  notices : List String

/-- `JSONResumeConverter.__init__`, with sub-expressions evaluated in Python
order (dict literals evaluate their values left to right). -/
def mkConverter (json_resume : JValue) : Except String ConvOut :=
  ebind (getItem json_resume "basics") fun basics =>
  ebind (getItem basics "name") fun name =>
  ebind (format_location (pyGetD basics "location" .null)) fun location =>
  ebind (format_social_networks (pyGetD basics "profiles" (.arr []))) fun sres =>
  ebind (format_education (pyGetD json_resume "education" (.arr []))) fun edus =>
  ebind (format_experience (pyGetD json_resume "work" (.arr []))) fun exps =>
  ebind (format_publications (pyGetD json_resume "publications" (.arr []))) fun pubs =>
  ebind (format_projects (pyGetD json_resume "projects" (.arr []))) fun projs =>
  ebind (format_technologies (pyGetD json_resume "skills" (.arr []))) fun techs =>
  ebind (format_awards (pyGetD json_resume "awards" (.arr []))) fun awds =>
  ebind (filterLen (sectionsList (pyGetD basics "summary" (.str "")) edus exps pubs projs
                                 techs awds)) fun nonEmpty =>
  .ok ⟨.obj [("cv", .obj (assembleCv name location (pyGetD basics "email" .null)
                                     (pyGetD basics "phone" .null)
                                     (pyGetD basics "url" (.str "")) sres.1 nonEmpty))],
       sres.2⟩

/-! ## Merge with an existing output (`convert`, converter.py lines 190–195) -/

/-- Python `d.update(u)`: values of keys already in `d` are replaced in
place, new keys of `u` are appended in order. -/
def dictUpdate (d u : List (String × JValue)) : List (String × JValue) :=
  (d.map fun p =>
    match u.lookup p.1 with
    | some v => (p.1, v)
    | none => p) ++
  u.filter fun q => !(d.any fun p => p.1 == q.1)

/-- The `.items()`-and-update part of line 195: both operands must be dicts
(`.items()` on anything else raises AttributeError), and every non-`cv` item
of the existing document is written into `render_cv`. -/
def mergeItems (render_cv ex : JValue) : Except String JValue :=
  match render_cv, ex with
  | .obj rc, .obj exf => .ok (.obj (dictUpdate rc (exf.filter fun q => q.1 != "cv")))
  | _, _ => .error "AttributeError: items"

/-- Lines 193–195: `existing_data = yaml.safe_load(outfile) or {}` followed
by `render_cv.update({k: v for k, v in existing_data.items() if k != "cv"})`.
`existing` is the parsed destination content (`null` models an empty
file). -/
def mergeStep (render_cv existing : JValue) : Except String JValue :=
  mergeItems render_cv (if truthy existing then existing else .obj [])

/-- The conversion pipeline of `convert` with I/O replaced by an injected
optional pre-existing destination document: construction, then the merge
(skipped when the destination file does not exist). -/
def convertPure (src : JValue) (existing : Option JValue) : Except String ConvOut :=
  ebind (mkConverter src) fun c =>
  match existing with
  | none => .ok c
  | some e => ebind (mergeStep c.render_cv e) fun merged => .ok ⟨merged, c.notices⟩

/-! ## Spec-side descriptions used to state the claims -/

/-- The membership test of the technologies generators, phrased on a single
skills entry: its `name` value is the string `target`. -/
def matchesName (target : String) (s : JValue) : Bool :=
  isNameMatch (pyGetD s "name" JValue.null) target

/-- Statement-side description of a technologies `details` string: the
comma-and-space join of the `keywords` of the first skills entry named
`target`, and the empty string when no entry is named `target`. -/
def detailsSpec (sks : List JValue) (target : String) (d : String) : Prop :=
  match sks.find? (matchesName target) with
  | some s => ∃ kw, pyGet? s "keywords" = some kw ∧ pyJoinComma kw = .ok d
  | none => d = ""

/-- The canonical label for a profile's `network` value: the table entry for
a supported string key, `none` otherwise. -/
def networkLabel (nv : JValue) : Option String :=
  match nv with
  | .str s => networks.lookup s
  | _ => none

/-- Statement-side description of one social-network output entry: the
resolved (or defaulted) label plus the verbatim username. -/
def expectedSocialEntry (p : JValue) : JValue :=
  .obj [("network", .str ((networkLabel (pyGetD p "network" JValue.null)).getD "GitHub")),
        ("username", pyGetD p "username" JValue.null)]

/-- Whether a profile entry triggers the unknown-network fallback. -/
def usesFallback (p : JValue) : Bool :=
  (networkLabel (pyGetD p "network" JValue.null)).isNone

/-- Statement-side description of "some entry of section `sect` lacks the
required field `f`": the section is present and iterable, and one of its
entries has no `f` key (in particular when the entry is not a dict). -/
def sectionEntryMissing (src : JValue) (sect f : String) : Prop :=
  ∃ v entries e, pyGet? src sect = some v ∧ pyIter v = .ok entries ∧ e ∈ entries ∧
    pyGet? e f = none

/-- Boolean form of "the section value has a length and it is positive",
the keep-condition of the empty-section sweep. -/
def pyLenPosB (v : JValue) : Bool :=
  match pyLen v with
  | .ok n => decide (0 < n)
  | .error _ => false

/-! ## Concrete documents used by the witness theorems -/

def adaBasics : JValue := .obj [("name", .str "Ada Lovelace")]

def c2src : JValue := .obj [("basics", adaBasics)]

def c3src : JValue := .obj [("basics", .obj [("email", .str "a@b.c")])]

def c4src : JValue := .obj [("basics", adaBasics)]

def c5src : JValue :=
  .obj [("basics", adaBasics), ("education", .arr []), ("work", .arr [])]

def c6profile : JValue := .obj [("network", .str "twitter"), ("username", .str "ada")]

def c7proj : JValue :=
  .obj [("name", .str "X"), ("startDate", .str "2020"), ("description", .str "Built X")]

def c7projBare : JValue := .obj [("name", .str "X"), ("startDate", .str "2020")]

def c8src : JValue := .obj [("basics", adaBasics)]

def c8existing : JValue := .obj [("design", .obj [("theme", .str "classic")])]

def c9job : JValue :=
  .obj [("name", .str "Acme"), ("position", .str "Dev"), ("startDate", .str "2020")]

def c9edu : JValue :=
  .obj [("institution", .str "U"), ("area", .str "CS"), ("studyType", .str "BSc"),
        ("startDate", .str "2015")]

def c9pub : JValue := .obj [("name", .str "P"), ("releaseDate", .str "2021")]

def c10src : JValue :=
  .obj [("basics", .obj [("name", .str "A")]),
        ("skills", .arr [.obj [("keywords", .arr [.str "Go"])],
                         .obj [("name", .str "Programming Languages"),
                               ("keywords", .arr [.str "Go"])]])]

def c10srcKw : JValue :=
  .obj [("basics", .obj [("name", .str "A")]),
        ("skills", .arr [.obj [("name", .str "Programming Languages")]])]

def c1src : JValue :=
  .obj [("basics", adaBasics),
        ("skills", .arr [.obj [("name", .str "Programming Languages"),
                               ("keywords", .arr [.str "Go", .str "Rust"])]])]

/-! ## General lemmas about the embedding primitives -/

theorem ebind_ok {α β : Type} {x : Except String α} {f : α → Except String β} {b : β} :
    ebind x f = .ok b ↔ ∃ a, x = .ok a ∧ f a = .ok b := by
  cases x <;> simp [ebind]

theorem getItem_ok {x : JValue} {k : String} {v : JValue} :
    getItem x k = .ok v ↔ pyGet? x k = some v := by
  cases x <;> simp only [getItem, pyGet?] <;> try simp
  rename_i fs
  cases h : fs.lookup k <;> simp [h]

theorem getItem_err {x : JValue} {k : String} (h : pyGet? x k = none) :
    ∃ e, getItem x k = .error e := by
  cases x <;> simp only [getItem, pyGet?] at h ⊢ <;> try exact ⟨_, rfl⟩
  rw [h]
  exact ⟨_, rfl⟩

theorem pyGetD_some {x : JValue} {k : String} {v d : JValue} (h : pyGet? x k = some v) :
    pyGetD x k d = v := by
  simp [pyGetD, h]

theorem pyGetD_none {x : JValue} {k : String} {d : JValue} (h : pyGet? x k = none) :
    pyGetD x k d = d := by
  simp [pyGetD, h]

theorem mapE_ok_mem {f : JValue → Except String JValue} {xs ys : List JValue}
    (h : mapE f xs = .ok ys) : ∀ x ∈ xs, ∃ y, f x = .ok y := by
  induction xs generalizing ys with
  | nil => intro x hx; cases hx
  | cons a rest ih =>
    intro x hx
    rw [mapE, ebind_ok] at h
    obtain ⟨y, hy, h⟩ := h
    rw [ebind_ok] at h
    obtain ⟨ys', hys', _⟩ := h
    rcases List.mem_cons.mp hx with hx | hx
    · exact ⟨y, hx ▸ hy⟩
    · exact ih hys' x hx

theorem lookup_mem {β : Type} {l : List (String × β)} {k : String} {v : β}
    (h : l.lookup k = some v) : (k, v) ∈ l := by
  induction l with
  | nil => simp [List.lookup] at h
  | cons p rest ih =>
    obtain ⟨k', v'⟩ := p
    simp only [List.lookup] at h
    cases hkk : (k == k') with
    | true =>
      rw [hkk] at h
      simp only [Option.some.injEq] at h
      subst h
      have : k = k' := by simpa using hkk
      subst this
      exact List.mem_cons_self _ _
    | false =>
      rw [hkk] at h
      exact List.mem_cons_of_mem _ (ih h)

theorem lookup_eq_none_of {β : Type} {l : List (String × β)} {k : String}
    (h : ∀ p ∈ l, p.1 ≠ k) : l.lookup k = none := by
  induction l with
  | nil => simp [List.lookup]
  | cons p rest ih =>
    obtain ⟨k', v'⟩ := p
    have hk' : k' ≠ k := h (k', v') (List.mem_cons_self _ _)
    have : (k == k') = false := by
      simpa using fun hc => hk' hc.symm
    simp only [List.lookup, this]
    exact ih fun p hp => h p (List.mem_cons_of_mem _ hp)

theorem lookup_filter_eq_none {β : Type} {l : List (String × β)} {q : String × β → Bool}
    {k : String} (h : ∀ v, (k, v) ∈ l → q (k, v) = false) :
    (l.filter q).lookup k = none := by
  induction l with
  | nil => simp [List.lookup]
  | cons p rest ih =>
    obtain ⟨k', v'⟩ := p
    have ihr := ih fun v hv => h v (List.mem_cons_of_mem _ hv)
    rw [List.filter_cons]
    by_cases hk : k = k'
    · subst hk
      have : q (k, v') = false := h v' (List.mem_cons_self _ _)
      simp [this, ihr]
    · have : (k == k') = false := by simpa using hk
      by_cases hq : q (k', v') = true
      · simp only [hq, if_true, List.lookup, this]
        exact ihr
      · rw [if_neg hq]
        exact ihr

theorem lookup_filter_eq_some {β : Type} {l : List (String × β)} {q : String × β → Bool}
    {k : String} {v : β} (hmem : (k, v) ∈ l) (hq : q (k, v) = true)
    (huniq : ∀ w, (k, w) ∈ l → w = v) :
    (l.filter q).lookup k = some v := by
  induction l with
  | nil => cases hmem
  | cons p rest ih =>
    obtain ⟨k', v'⟩ := p
    rw [List.filter_cons]
    by_cases hk : k' = k
    · subst hk
      have hv' : v' = v := huniq v' (List.mem_cons_self _ _)
      subst hv'
      rw [if_pos hq]
      simp [List.lookup]
    · have hbeq : (k == k') = false := by
        simpa using fun hc => hk hc.symm
      have hmem' : (k, v) ∈ rest := by
        rcases List.mem_cons.mp hmem with hx | hx
        · exact absurd (congrArg Prod.fst hx).symm hk
        · exact hx
      have ihr := ih hmem' fun w hw => huniq w (List.mem_cons_of_mem _ hw)
      by_cases hq' : q (k', v') = true
      · rw [if_pos hq']
        simp only [List.lookup, hbeq]
        exact ihr
      · rw [if_neg hq']
        exact ihr

theorem filterLen_eq_filter {l r : List (String × JValue)} (h : filterLen l = .ok r) :
    r = l.filter fun p => pyLenPosB p.2 := by
  induction l generalizing r with
  | nil =>
    simp only [filterLen, Except.ok.injEq] at h
    simp [← h]
  | cons p rest ih =>
    obtain ⟨k, v⟩ := p
    rw [filterLen, ebind_ok] at h
    obtain ⟨n, hn, h⟩ := h
    rw [ebind_ok] at h
    obtain ⟨r', hr', h⟩ := h
    simp only [Except.ok.injEq] at h
    subst h
    rw [List.filter_cons]
    have hb : pyLenPosB v = decide (0 < n) := by
      simp [pyLenPosB, hn]
    rw [← ih hr']
    by_cases hpos : 0 < n
    · rw [if_pos hpos, if_pos (by simp [hb, hpos])]
    · rw [if_neg hpos, if_neg (by simp [hb, hpos])]

theorem filterLen_mem_pos {l r : List (String × JValue)} (h : filterLen l = .ok r) :
    ∀ p ∈ r, ∃ n, pyLen p.2 = .ok n ∧ 0 < n := by
  intro p hp
  rw [filterLen_eq_filter h] at hp
  have := List.of_mem_filter hp
  simp only [pyLenPosB] at this
  cases hl : pyLen p.2 with
  | ok n =>
    rw [hl] at this
    exact ⟨n, rfl, by simpa using this⟩
  | error e => rw [hl] at this; cases this

/-! ## Inversion of the constructor -/

theorem mkConverter_ok_iff {src : JValue} {out : ConvOut} :
    mkConverter src = .ok out ↔
    ∃ basics name location sres edus exps pubs projs techs awds nonEmpty,
      getItem src "basics" = .ok basics ∧
      getItem basics "name" = .ok name ∧
      format_location (pyGetD basics "location" .null) = .ok location ∧
      format_social_networks (pyGetD basics "profiles" (.arr [])) = .ok sres ∧
      format_education (pyGetD src "education" (.arr [])) = .ok edus ∧
      format_experience (pyGetD src "work" (.arr [])) = .ok exps ∧
      format_publications (pyGetD src "publications" (.arr [])) = .ok pubs ∧
      format_projects (pyGetD src "projects" (.arr [])) = .ok projs ∧
      format_technologies (pyGetD src "skills" (.arr [])) = .ok techs ∧
      format_awards (pyGetD src "awards" (.arr [])) = .ok awds ∧
      filterLen (sectionsList (pyGetD basics "summary" (.str "")) edus exps pubs projs
                              techs awds) = .ok nonEmpty ∧
      out = ⟨.obj [("cv", .obj (assembleCv name location (pyGetD basics "email" .null)
                                           (pyGetD basics "phone" .null)
                                           (pyGetD basics "url" (.str "")) sres.1 nonEmpty))],
             sres.2⟩ := by
  rw [mkConverter]
  simp only [ebind_ok, Except.ok.injEq]
  constructor
  · rintro ⟨b, hb, n, hn, loc, hloc, sres, hsres, ed, hed, ex, hex, pu, hpu, pr, hpr,
      te, hte, aw, haw, ne, hne, hout⟩
    exact ⟨b, n, loc, sres, ed, ex, pu, pr, te, aw, ne, hb, hn, hloc, hsres, hed, hex,
      hpu, hpr, hte, haw, hne, hout.symm⟩
  · rintro ⟨b, n, loc, sres, ed, ex, pu, pr, te, aw, ne, hb, hn, hloc, hsres, hed, hex,
      hpu, hpr, hte, haw, hne, hout⟩
    exact ⟨b, hb, n, hn, loc, hloc, sres, hsres, ed, hed, ex, hex, pu, hpu, pr, hpr,
      te, hte, aw, haw, ne, hne, hout.symm⟩

theorem cvFields_mem {n l e p w : JValue} {s : List JValue} {ne : List (String × JValue)}
    {k : String} {v : JValue} (h : (k, v) ∈ cvFields n l e p w s ne) :
    (k = "name" ∧ v = n) ∨ (k = "location" ∧ v = l) ∨ (k = "email" ∧ v = e) ∨
    (k = "phone" ∧ v = p) ∨ (k = "website" ∧ v = w) ∨
    (k = "social_networks" ∧ v = .arr s) ∨ (k = "sections" ∧ v = .obj ne) := by
  simpa [cvFields, Prod.mk.injEq] using h

theorem sectionsList_mem {su : JValue} {ed ex pu pr te aw : List JValue}
    {k : String} {v : JValue} (h : (k, v) ∈ sectionsList su ed ex pu pr te aw) :
    (k = "summary" ∧ v = su) ∨ (k = "education" ∧ v = .arr ed) ∨
    (k = "experience" ∧ v = .arr ex) ∨ (k = "publications" ∧ v = .arr pu) ∨
    (k = "projects" ∧ v = .arr pr) ∨ (k = "technologies" ∧ v = .arr te) ∨
    (k = "awards" ∧ v = .arr aw) := by
  simpa [sectionsList, Prod.mk.injEq] using h

theorem basics_eq {src basics : JValue} (h : getItem src "basics" = .ok basics) :
    pyGetD src "basics" JValue.null = basics :=
  pyGetD_some (getItem_ok.mp h)

/-- C4: after a successful construction the top-level `cv` mapping contains
no falsy value: every surviving field is truthy, and in particular an absent
`basics.email` / `basics.phone` / `basics.url` or an empty `basics.profiles`
leaves `cv` without the corresponding key. -/
theorem C4_cv_fields_truthy (src : JValue) (out : ConvOut) (h : mkConverter src = .ok out) :
    ∃ cv, out.render_cv = .obj [("cv", .obj cv)] ∧
      (∀ p ∈ cv, truthy p.2 = true) ∧
      (pyGet? (pyGetD src "basics" JValue.null) "email" = none → cv.lookup "email" = none) ∧
      (pyGet? (pyGetD src "basics" JValue.null) "phone" = none → cv.lookup "phone" = none) ∧
      (pyGet? (pyGetD src "basics" JValue.null) "url" = none → cv.lookup "website" = none) ∧
      (pyGetD (pyGetD src "basics" JValue.null) "profiles" (.arr []) = .arr [] →
        cv.lookup "social_networks" = none) := by
  rw [mkConverter_ok_iff] at h
  obtain ⟨basics, name, location, sres, edus, exps, pubs, projs, techs, awds, nonEmpty,
    hb, hn, hloc, hsres, hed, hex, hpu, hpr, hte, haw, hne, hout⟩ := h
  have hbe : pyGetD src "basics" JValue.null = basics := basics_eq hb
  subst hout
  rw [hbe]
  refine ⟨_, rfl, ?_, ?_, ?_, ?_, ?_⟩
  · intro p hp
    simp only [assembleCv] at hp
    simpa using List.of_mem_filter hp
  · intro hemail
    simp only [assembleCv]
    apply lookup_filter_eq_none
    intro v hv
    rcases cvFields_mem hv with ⟨hk, hv⟩|⟨hk, hv⟩|⟨hk, hv⟩|⟨hk, hv⟩|⟨hk, hv⟩|⟨hk, hv⟩|⟨hk, hv⟩ <;>
      first
      | exact absurd hk (by decide)
      | (subst hv; simp [pyGetD_none hemail, truthy])
  · intro hphone
    simp only [assembleCv]
    apply lookup_filter_eq_none
    intro v hv
    rcases cvFields_mem hv with ⟨hk, hv⟩|⟨hk, hv⟩|⟨hk, hv⟩|⟨hk, hv⟩|⟨hk, hv⟩|⟨hk, hv⟩|⟨hk, hv⟩ <;>
      first
      | exact absurd hk (by decide)
      | (subst hv; simp [pyGetD_none hphone, truthy])
  · intro hurl
    simp only [assembleCv]
    apply lookup_filter_eq_none
    intro v hv
    rcases cvFields_mem hv with ⟨hk, hv⟩|⟨hk, hv⟩|⟨hk, hv⟩|⟨hk, hv⟩|⟨hk, hv⟩|⟨hk, hv⟩|⟨hk, hv⟩ <;>
      first
      | exact absurd hk (by decide)
      | (subst hv; simp [pyGetD_none hurl, truthy])
  · intro hpro
    rw [hpro] at hsres
    have hs : sres = ([], []) := by
      simpa [format_social_networks, pyIter, ebind, socialLoop, eq_comm] using hsres
    simp only [assembleCv]
    apply lookup_filter_eq_none
    intro v hv
    rcases cvFields_mem hv with ⟨hk, hv⟩|⟨hk, hv⟩|⟨hk, hv⟩|⟨hk, hv⟩|⟨hk, hv⟩|⟨hk, hv⟩|⟨hk, hv⟩ <;>
      first
      | exact absurd hk (by decide)
      | (subst hv; simp [hs, truthy])

/-- Witness for C4 at a document with no email, phone, url or profiles. -/
theorem C4_witness :
    ∃ out cv, mkConverter c4src = .ok out ∧ out.render_cv = .obj [("cv", .obj cv)] ∧
      cv.lookup "email" = none ∧ cv.lookup "social_networks" = none := by
  obtain ⟨out, hout⟩ : ∃ out, mkConverter c4src = .ok out := ⟨_, rfl⟩
  obtain ⟨cv, hshape, _, hemail, _, _, hsn⟩ := C4_cv_fields_truthy c4src out hout
  exact ⟨out, cv, hout, hshape, hemail rfl, hsn rfl⟩

theorem format_technologies_ok_iff {skills : JValue} {techs : List JValue} :
    format_technologies skills = .ok techs ↔
    ∃ sks lv fv mv dl df dm,
      pyIter skills = .ok sks ∧
      findKeywords sks "Programming Languages" = .ok lv ∧
      findKeywords sks "Frameworks" = .ok fv ∧
      findKeywords sks "Miscellaneous" = .ok mv ∧
      pyJoinComma lv = .ok dl ∧ pyJoinComma fv = .ok df ∧ pyJoinComma mv = .ok dm ∧
      techs = [techEntry "Languages" dl, techEntry "Software" df, techEntry "Miscellaneous" dm] := by
  rw [format_technologies]
  simp only [ebind_ok, Except.ok.injEq]
  constructor
  · rintro ⟨sks, h1, lv, h2, fv, h3, mv, h4, dl, h5, df, h6, dm, h7, h8⟩
    exact ⟨sks, lv, fv, mv, dl, df, dm, h1, h2, h3, h4, h5, h6, h7, h8.symm⟩
  · rintro ⟨sks, lv, fv, mv, dl, df, dm, h1, h2, h3, h4, h5, h6, h7, h8⟩
    exact ⟨sks, h1, lv, h2, fv, h3, mv, h4, dl, h5, df, h6, dm, h7, h8.symm⟩

/-- C5: every section present in the output `cv.sections` has positive
length, and each computed section with zero entries (summary included) is
omitted from the output sections mapping. -/
theorem C5_sections_nonempty (src : JValue) (out : ConvOut) (h : mkConverter src = .ok out) :
    ∃ cv sections edus exps pubs projs awds,
      out.render_cv = .obj [("cv", .obj cv)] ∧
      cv.lookup "sections" = some (.obj sections) ∧
      format_education (pyGetD src "education" (.arr [])) = .ok edus ∧
      format_experience (pyGetD src "work" (.arr [])) = .ok exps ∧
      format_publications (pyGetD src "publications" (.arr [])) = .ok pubs ∧
      format_projects (pyGetD src "projects" (.arr [])) = .ok projs ∧
      format_awards (pyGetD src "awards" (.arr [])) = .ok awds ∧
      (∀ p ∈ sections, ∃ n, pyLen p.2 = .ok n ∧ 0 < n) ∧
      (pyLen (pyGetD (pyGetD src "basics" JValue.null) "summary" (.str "")) = .ok 0 →
        sections.lookup "summary" = none) ∧
      (edus = [] → sections.lookup "education" = none) ∧
      (exps = [] → sections.lookup "experience" = none) ∧
      (pubs = [] → sections.lookup "publications" = none) ∧
      (projs = [] → sections.lookup "projects" = none) ∧
      (awds = [] → sections.lookup "awards" = none) := by
  rw [mkConverter_ok_iff] at h
  obtain ⟨basics, name, location, sres, edus, exps, pubs, projs, techs, awds, nonEmpty,
    hb, hn, hloc, hsres, hed, hex, hpu, hpr, hte, haw, hne, hout⟩ := h
  subst hout
  have hbe := basics_eq hb
  rw [format_technologies_ok_iff] at hte
  obtain ⟨sks, lv, fv, mv, dl, df, dm, hiter, hfl, hff, hfm, hjl, hjf, hjm, htechs⟩ := hte
  have hfilter := filterLen_eq_filter hne
  have hne_mem : ("technologies", JValue.arr techs) ∈ nonEmpty := by
    rw [hfilter]
    refine List.mem_filter.mpr ⟨by simp [sectionsList], ?_⟩
    subst htechs
    rfl
  have htr : truthy (.obj nonEmpty) = true := by
    cases hne' : nonEmpty with
    | nil => rw [hne'] at hne_mem; cases hne_mem
    | cons a l => simp [truthy]
  refine ⟨_, nonEmpty, edus, exps, pubs, projs, awds, rfl, ?_, hed, hex, hpu, hpr, haw,
    filterLen_mem_pos hne, ?_, ?_, ?_, ?_, ?_, ?_⟩
  · simp only [assembleCv]
    apply lookup_filter_eq_some
    · simp [cvFields]
    · exact htr
    · intro w hw
      rcases cvFields_mem hw with ⟨hk, hv⟩|⟨hk, hv⟩|⟨hk, hv⟩|⟨hk, hv⟩|⟨hk, hv⟩|⟨hk, hv⟩|⟨hk, hv⟩ <;>
        first
        | exact absurd hk (by decide)
        | exact hv
  · intro hsum
    rw [hbe] at hsum
    rw [hfilter]
    apply lookup_filter_eq_none
    intro v hv
    rcases sectionsList_mem hv with ⟨hk, hv⟩|⟨hk, hv⟩|⟨hk, hv⟩|⟨hk, hv⟩|⟨hk, hv⟩|⟨hk, hv⟩|⟨hk, hv⟩ <;>
      first
      | exact absurd hk (by decide)
      | (subst hv; simp [pyLenPosB, hsum])
  · intro h0
    subst h0
    rw [hfilter]
    apply lookup_filter_eq_none
    intro v hv
    rcases sectionsList_mem hv with ⟨hk, hv⟩|⟨hk, hv⟩|⟨hk, hv⟩|⟨hk, hv⟩|⟨hk, hv⟩|⟨hk, hv⟩|⟨hk, hv⟩ <;>
      first
      | exact absurd hk (by decide)
      | (subst hv; rfl)
  · intro h0
    subst h0
    rw [hfilter]
    apply lookup_filter_eq_none
    intro v hv
    rcases sectionsList_mem hv with ⟨hk, hv⟩|⟨hk, hv⟩|⟨hk, hv⟩|⟨hk, hv⟩|⟨hk, hv⟩|⟨hk, hv⟩|⟨hk, hv⟩ <;>
      first
      | exact absurd hk (by decide)
      | (subst hv; rfl)
  · intro h0
    subst h0
    rw [hfilter]
    apply lookup_filter_eq_none
    intro v hv
    rcases sectionsList_mem hv with ⟨hk, hv⟩|⟨hk, hv⟩|⟨hk, hv⟩|⟨hk, hv⟩|⟨hk, hv⟩|⟨hk, hv⟩|⟨hk, hv⟩ <;>
      first
      | exact absurd hk (by decide)
      | (subst hv; rfl)
  · intro h0
    subst h0
    rw [hfilter]
    apply lookup_filter_eq_none
    intro v hv
    rcases sectionsList_mem hv with ⟨hk, hv⟩|⟨hk, hv⟩|⟨hk, hv⟩|⟨hk, hv⟩|⟨hk, hv⟩|⟨hk, hv⟩|⟨hk, hv⟩ <;>
      first
      | exact absurd hk (by decide)
      | (subst hv; rfl)
  · intro h0
    subst h0
    rw [hfilter]
    apply lookup_filter_eq_none
    intro v hv
    rcases sectionsList_mem hv with ⟨hk, hv⟩|⟨hk, hv⟩|⟨hk, hv⟩|⟨hk, hv⟩|⟨hk, hv⟩|⟨hk, hv⟩|⟨hk, hv⟩ <;>
      first
      | exact absurd hk (by decide)
      | (subst hv; rfl)

/-- Witness for C5: with empty `education` and `work` lists those sections
are omitted while the sections mapping itself is present. -/
theorem C5_witness :
    ∃ out cv sections, mkConverter c5src = .ok out ∧
      out.render_cv = .obj [("cv", .obj cv)] ∧
      cv.lookup "sections" = some (.obj sections) ∧
      sections.lookup "education" = none ∧ sections.lookup "experience" = none := by
  obtain ⟨out, hout⟩ : ∃ out, mkConverter c5src = .ok out := ⟨_, rfl⟩
  obtain ⟨cv, sections, edus, exps, pubs, projs, awds, h1, h2, hed, hex, hpu, hpr, haw,
    hpos, hs, he1, he2, hp1, hp2, ha⟩ := C5_sections_nonempty c5src out hout
  have hed0 : edus = [] := by
    have h0 : format_education (pyGetD c5src "education" (.arr [])) = .ok ([] : List JValue) := rfl
    simpa using h0.symm.trans hed
  have hex0 : exps = [] := by
    have h0 : format_experience (pyGetD c5src "work" (.arr [])) = .ok ([] : List JValue) := rfl
    simpa using h0.symm.trans hex
  exact ⟨out, cv, sections, hout, h1, h2, he1 hed0, he2 hex0⟩

theorem findKeywords_ok_char {sks : List JValue} {target : String} {kw : JValue}
    (h : findKeywords sks target = .ok kw) :
    (∃ s, sks.find? (matchesName target) = some s ∧ pyGet? s "keywords" = some kw) ∨
    (sks.find? (matchesName target) = none ∧ kw = .arr []) := by
  induction sks with
  | nil =>
    right
    refine ⟨rfl, ?_⟩
    rw [findKeywords] at h
    simpa [eq_comm] using h
  | cons s rest ih =>
    rw [findKeywords, ebind_ok] at h
    obtain ⟨n, hn, h⟩ := h
    have hns : pyGet? s "name" = some n := getItem_ok.mp hn
    by_cases hm : isNameMatch n target = true
    · rw [if_pos hm] at h
      have hms : matchesName target s = true := by
        simp [matchesName, pyGetD_some hns, hm]
      left
      exact ⟨s, List.find?_cons_of_pos _ hms, getItem_ok.mp h⟩
    · rw [if_neg hm] at h
      have hms : matchesName target s = false := by
        simp only [matchesName, pyGetD_some hns]
        simpa using hm
      rcases ih h with ⟨s', hf, hkw⟩ | ⟨hf, hkw⟩
      · left
        exact ⟨s', by rw [List.find?_cons_of_neg _ (by simp [hms])]; exact hf, hkw⟩
      · right
        exact ⟨by rw [List.find?_cons_of_neg _ (by simp [hms])]; exact hf, hkw⟩

theorem assembleCv_lookup_sections {name location email phone website : JValue}
    {sns : List JValue} {nonEmpty : List (String × JValue)}
    (htr : truthy (.obj nonEmpty) = true) :
    (assembleCv name location email phone website sns nonEmpty).lookup "sections"
      = some (.obj nonEmpty) := by
  simp only [assembleCv]
  apply lookup_filter_eq_some
  · simp [cvFields]
  · exact htr
  · intro w hw
    rcases cvFields_mem hw with ⟨hk, hv⟩|⟨hk, hv⟩|⟨hk, hv⟩|⟨hk, hv⟩|⟨hk, hv⟩|⟨hk, hv⟩|⟨hk, hv⟩ <;>
      first
      | exact absurd hk (by decide)
      | exact hv

theorem nonEmpty_lookup_technologies {su : JValue} {ed ex pu pr aw techs : List JValue}
    {nonEmpty : List (String × JValue)}
    (hne : filterLen (sectionsList su ed ex pu pr techs aw) = .ok nonEmpty)
    (hpos : pyLenPosB (.arr techs) = true) :
    nonEmpty.lookup "technologies" = some (.arr techs) := by
  rw [filterLen_eq_filter hne]
  apply lookup_filter_eq_some
  · simp [sectionsList]
  · exact hpos
  · intro w hw
    rcases sectionsList_mem hw with ⟨hk, hv⟩|⟨hk, hv⟩|⟨hk, hv⟩|⟨hk, hv⟩|⟨hk, hv⟩|⟨hk, hv⟩|⟨hk, hv⟩ <;>
      first
      | exact absurd hk (by decide)
      | exact hv

/-- C1: a successful conversion always emits a `technologies` section of
exactly three entries, labelled `Languages`, `Software`, `Miscellaneous` in
order, whose details are the comma-and-space joins of the keywords of the
first skills entries named `Programming Languages`, `Frameworks` and
`Miscellaneous` respectively (empty string when no such entry exists). -/
theorem C1_technologies_section (src : JValue) (out : ConvOut) (h : mkConverter src = .ok out) :
    ∃ cv sections sks dl df dm,
      out.render_cv = .obj [("cv", .obj cv)] ∧
      cv.lookup "sections" = some (.obj sections) ∧
      pyIter (pyGetD src "skills" (.arr [])) = .ok sks ∧
      sections.lookup "technologies" =
        some (.arr [techEntry "Languages" dl, techEntry "Software" df,
                    techEntry "Miscellaneous" dm]) ∧
      detailsSpec sks "Programming Languages" dl ∧
      detailsSpec sks "Frameworks" df ∧
      detailsSpec sks "Miscellaneous" dm := by
  rw [mkConverter_ok_iff] at h
  obtain ⟨basics, name, location, sres, edus, exps, pubs, projs, techs, awds, nonEmpty,
    hb, hn, hloc, hsres, hed, hex, hpu, hpr, hte, haw, hne, hout⟩ := h
  subst hout
  rw [format_technologies_ok_iff] at hte
  obtain ⟨sks, lv, fv, mv, dl, df, dm, hiter, hfl, hff, hfm, hjl, hjf, hjm, htechs⟩ := hte
  subst htechs
  have hlook := nonEmpty_lookup_technologies hne rfl
  have htr : truthy (.obj nonEmpty) = true := by
    have hmem := lookup_mem hlook
    cases hne' : nonEmpty with
    | nil => rw [hne'] at hmem; cases hmem
    | cons a l => simp [truthy]
  have hdetail : ∀ {lvv : JValue} {dlv : String} {target : String},
      findKeywords sks target = .ok lvv → pyJoinComma lvv = .ok dlv →
      detailsSpec sks target dlv := by
    intro lvv dlv target hfk hj
    unfold detailsSpec
    rcases findKeywords_ok_char hfk with ⟨s, hf, hkw⟩ | ⟨hf, hkw⟩
    · rw [hf]
      exact ⟨lvv, hkw, hj⟩
    · rw [hf]
      subst hkw
      have h0 : pyJoinComma (.arr []) = .ok "" := rfl
      simpa [eq_comm] using h0.symm.trans hj
  exact ⟨_, nonEmpty, sks, dl, df, dm, rfl, assembleCv_lookup_sections htr, hiter, hlook,
    hdetail hfl hjl, hdetail hff hjf, hdetail hfm hjm⟩

/-- Witness for C1 at a document whose only skills group is
`Programming Languages` with keywords `Go`, `Rust`. -/
theorem C1_witness :
    ∃ out cv sections sks dl df dm, mkConverter c1src = .ok out ∧
      out.render_cv = .obj [("cv", .obj cv)] ∧
      cv.lookup "sections" = some (.obj sections) ∧
      pyIter (pyGetD c1src "skills" (.arr [])) = .ok sks ∧
      sections.lookup "technologies" =
        some (.arr [techEntry "Languages" dl, techEntry "Software" df,
                    techEntry "Miscellaneous" dm]) ∧
      detailsSpec sks "Programming Languages" dl ∧
      detailsSpec sks "Frameworks" df ∧
      detailsSpec sks "Miscellaneous" dm := by
  obtain ⟨out, hout⟩ : ∃ out, mkConverter c1src = .ok out := ⟨_, rfl⟩
  obtain ⟨cv, sections, sks, dl, df, dm, h1, h2, h3, h4, h5, h6, h7⟩ :=
    C1_technologies_section c1src out hout
  exact ⟨out, cv, sections, sks, dl, df, dm, hout, h1, h2, h3, h4, h5, h6, h7⟩

theorem networks_label_ne {s l : String} (h : networks.lookup s = some l) : l ≠ "" := by
  have hmem := lookup_mem h
  have hall : ∀ p ∈ networks, p.2 ≠ "" := by decide
  exact hall _ hmem

theorem networkLabel_some_ne {nv : JValue} {l : String} (h : networkLabel nv = some l) :
    l ≠ "" := by
  cases nv <;> simp [networkLabel] at h
  exact networks_label_ne h

/-- C6: for every profile list that `format_social_networks` accepts, the
output entries are, in source order, the canonical label of a supported
`network` key (falling back to `GitHub` otherwise) paired with the verbatim
`username`, and one fallback notice is printed per unrecognized network. -/
theorem C6_social_network_entries (ps : List JValue) (entries : List JValue)
    (notices : List String) (h : socialLoop ps = .ok (entries, notices)) :
    entries = ps.map expectedSocialEntry ∧
    notices = (ps.filter usesFallback).map (fun _ => fallbackMsg) := by
  induction ps generalizing entries notices with
  | nil =>
    rw [socialLoop] at h
    simp only [Except.ok.injEq, Prod.mk.injEq] at h
    obtain ⟨he, hn⟩ := h
    simp [← he, ← hn]
  | cons p rest ih =>
    rw [socialLoop, ebind_ok] at h
    obtain ⟨nv, hnv, h⟩ := h
    rw [ebind_ok] at h
    obtain ⟨nopt, hng, h⟩ := h
    simp only [ebind_ok, Except.ok.injEq, Prod.mk.injEq] at h
    obtain ⟨uv, huv, ⟨r1, r2⟩, hr, he, hn⟩ := h
    have hnvs : pyGet? p "network" = some nv := getItem_ok.mp hnv
    have huvs : pyGet? p "username" = some uv := getItem_ok.mp huv
    obtain ⟨ihe, ihn⟩ := ih r1 r2 hr
    have hnl : nopt = networkLabel nv := by
      cases nv <;> simp [networksGet, networkLabel] at hng <;> simp [networkLabel, ← hng]
    subst hnl
    have hexp : expectedSocialEntry p =
        .obj [("network", .str ((networkLabel nv).getD "GitHub")), ("username", uv)] := by
      simp [expectedSocialEntry, pyGetD_some hnvs, pyGetD_some huvs]
    have hfb : usesFallback p = (networkLabel nv).isNone := by
      simp [usesFallback, pyGetD_some hnvs]
    cases hl : networkLabel nv with
    | some l =>
      have hlne : l ≠ "" := networkLabel_some_ne hl
      rw [hl] at he hn
      have htr : truthy (optToJ (some l)) = true := by
        simpa [optToJ, truthy] using hlne
      rw [if_pos htr] at he
      rw [if_pos htr] at hn
      constructor
      · rw [← he, ihe, List.map_cons, hexp, hl]
        simp [optToJ]
      · rw [← hn, ihn, List.filter_cons]
        rw [if_neg (by simp [hfb, hl])]
        simp
    | none =>
      rw [hl] at he hn
      have htr : truthy (optToJ none) = false := rfl
      rw [htr] at he hn
      simp only [Bool.false_eq_true, if_false] at he hn
      constructor
      · rw [← he, ihe, List.map_cons, hexp, hl]
        rfl
      · rw [← hn, ihn, List.filter_cons]
        rw [if_pos (by simp [hfb, hl])]
        simp

/-- Witness for C6 at the unsupported network `twitter`: the entry falls
back to `GitHub`, keeps the username, and one notice is printed. -/
theorem C6_witness :
    ∃ entries notices, socialLoop [c6profile] = .ok (entries, notices) ∧
      entries = [c6profile].map expectedSocialEntry ∧
      notices = ([c6profile].filter usesFallback).map (fun _ => fallbackMsg) ∧
      entries = [.obj [("network", .str "GitHub"), ("username", .str "ada")]] ∧
      notices = [fallbackMsg] := by
  obtain ⟨e, n, h⟩ : ∃ e n, socialLoop [c6profile] = .ok (e, n) := ⟨_, _, rfl⟩
  obtain ⟨he, hn⟩ := C6_social_network_entries [c6profile] e n h
  exact ⟨e, n, h, he, hn, by rw [he]; rfl, by rw [hn]; rfl⟩

/-- C7: a successfully formatted project entry has `highlights = [description]`
when a `description` key exists and otherwise copies the source `highlights`
key verbatim; an absent `endDate` becomes the literal `present`; and an entry
with neither `description` nor `highlights` makes the transform raise a
lookup error. -/
theorem C7_project_highlights (proj : JValue) :
    (∀ out, format_proj_entry proj = .ok out →
      ∃ name sd hl,
        out = .obj [("name", name), ("start_date", sd),
                    ("end_date", pyGetD proj "endDate" (.str "present")),
                    ("highlights", hl)] ∧
        (∀ d, pyGet? proj "description" = some d → hl = .arr [d]) ∧
        (pyGet? proj "description" = none → pyGet? proj "highlights" = some hl) ∧
        (pyGet? proj "endDate" = none →
          pyGetD proj "endDate" (.str "present") = .str "present")) ∧
    (pyGet? proj "description" = none → pyGet? proj "highlights" = none →
      ∃ msg, format_proj_entry proj = .error msg) := by
  constructor
  · intro out h
    rw [format_proj_entry, ebind_ok] at h
    obtain ⟨name, hname, h⟩ := h
    rw [ebind_ok] at h
    obtain ⟨sd, hsd, h⟩ := h
    rw [ebind_ok] at h
    obtain ⟨hl, hhl, h⟩ := h
    simp only [Except.ok.injEq] at h
    refine ⟨name, sd, hl, h.symm, ?_, ?_, fun hend => pyGetD_none hend⟩
    · intro d hd
      rw [hd] at hhl
      simpa [eq_comm] using hhl
    · intro hnone
      rw [hnone] at hhl
      exact getItem_ok.mp hhl
  · intro hd hh
    obtain ⟨e, he⟩ := getItem_err (x := proj) (k := "highlights") hh
    cases hnm : getItem proj "name" with
    | error e1 => exact ⟨e1, by simp [format_proj_entry, ebind, hnm]⟩
    | ok name =>
      cases hsd : getItem proj "startDate" with
      | error e2 => exact ⟨e2, by simp [format_proj_entry, ebind, hnm, hsd]⟩
      | ok sd => exact ⟨e, by simp [format_proj_entry, ebind, hnm, hsd, hd, he]⟩

/-- Witness for C7: a project with a description gets `[description]` as
highlights and `present` as end date; one with neither `description` nor
`highlights` raises. -/
theorem C7_witness :
    (∃ out name sd hl, format_proj_entry c7proj = .ok out ∧
      out = .obj [("name", name), ("start_date", sd),
                  ("end_date", pyGetD c7proj "endDate" (.str "present")),
                  ("highlights", hl)] ∧
      hl = .arr [.str "Built X"] ∧
      pyGetD c7proj "endDate" (.str "present") = .str "present") ∧
    (∃ msg, format_proj_entry c7projBare = .error msg) := by
  constructor
  · obtain ⟨out, hout⟩ : ∃ out, format_proj_entry c7proj = .ok out := ⟨_, rfl⟩
    obtain ⟨name, sd, hl, hshape, hdesc, _, hend⟩ := (C7_project_highlights c7proj).1 out hout
    exact ⟨out, name, sd, hl, hout, hshape, hdesc (.str "Built X") rfl, hend rfl⟩
  · exact (C7_project_highlights c7projBare).2 rfl rfl

/-- C9: the falsy-value sweep does not reach inside section entries: an
experience entry built from a job without `location` / `highlights` keeps
`location = ""` / `highlights = []`, an education entry without `location`
keeps `location = ""`, and a publication without `publisher` / `authors`
keeps `journal = ""` / `authors = []`. -/
theorem C9_entries_keep_falsy_fields :
    (∀ job out, format_exp_entry job = .ok out →
      (pyGet? job "location" = none → pyGet? out "location" = some (.str "")) ∧
      (pyGet? job "highlights" = none → pyGet? out "highlights" = some (.arr []))) ∧
    (∀ edu out, format_edu_entry edu = .ok out →
      pyGet? edu "location" = none → pyGet? out "location" = some (.str "")) ∧
    (∀ pub out, format_pub_entry pub = .ok out →
      (pyGet? pub "publisher" = none → pyGet? out "journal" = some (.str "")) ∧
      (pyGet? pub "authors" = none → pyGet? out "authors" = some (.arr []))) := by
  refine ⟨?_, ?_, ?_⟩
  · intro job out h
    rw [format_exp_entry, ebind_ok] at h
    obtain ⟨company, _, h⟩ := h
    rw [ebind_ok] at h
    obtain ⟨position, _, h⟩ := h
    rw [ebind_ok] at h
    obtain ⟨sd, _, h⟩ := h
    simp only [Except.ok.injEq] at h
    subst h
    constructor
    · intro hloc
      rw [show pyGetD job "location" (.str "") = .str "" from pyGetD_none hloc]
      rfl
    · intro hhl
      rw [show pyGetD job "highlights" (.arr []) = .arr [] from pyGetD_none hhl]
      rfl
  · intro edu out h
    rw [format_edu_entry, ebind_ok] at h
    obtain ⟨institution, _, h⟩ := h
    rw [ebind_ok] at h
    obtain ⟨area, _, h⟩ := h
    rw [ebind_ok] at h
    obtain ⟨degree, _, h⟩ := h
    rw [ebind_ok] at h
    obtain ⟨sd, _, h⟩ := h
    simp only [Except.ok.injEq] at h
    subst h
    intro hloc
    rw [show pyGetD edu "location" (.str "") = .str "" from pyGetD_none hloc]
    rfl
  · intro pub out h
    rw [format_pub_entry, ebind_ok] at h
    obtain ⟨title, _, h⟩ := h
    rw [ebind_ok] at h
    obtain ⟨date, _, h⟩ := h
    simp only [Except.ok.injEq] at h
    subst h
    constructor
    · intro hjour
      rw [show pyGetD pub "publisher" (.str "") = .str "" from pyGetD_none hjour]
      cases h1 : truthy (pyGetD pub "doi" JValue.null) <;>
        cases h2 : truthy (pyGetD pub "url" JValue.null) <;>
          simp [h1, h2, pyGet?, List.lookup]
    · intro hauth
      rw [show pyGetD pub "authors" (.arr []) = .arr [] from pyGetD_none hauth]
      cases h1 : truthy (pyGetD pub "doi" JValue.null) <;>
        cases h2 : truthy (pyGetD pub "url" JValue.null) <;>
          simp [h1, h2, pyGet?, List.lookup]

/-- Witness for C9 at entries lacking the optional fields. -/
theorem C9_witness :
    (∃ out, format_exp_entry c9job = .ok out ∧ pyGet? out "location" = some (.str "") ∧
      pyGet? out "highlights" = some (.arr [])) ∧
    (∃ out, format_edu_entry c9edu = .ok out ∧ pyGet? out "location" = some (.str "")) ∧
    (∃ out, format_pub_entry c9pub = .ok out ∧ pyGet? out "journal" = some (.str "") ∧
      pyGet? out "authors" = some (.arr [])) := by
  refine ⟨?_, ?_, ?_⟩
  · obtain ⟨out, hout⟩ : ∃ out, format_exp_entry c9job = .ok out := ⟨_, rfl⟩
    obtain ⟨hl, hh⟩ := C9_entries_keep_falsy_fields.1 c9job out hout
    exact ⟨out, hout, hl rfl, hh rfl⟩
  · obtain ⟨out, hout⟩ : ∃ out, format_edu_entry c9edu = .ok out := ⟨_, rfl⟩
    exact ⟨out, hout, C9_entries_keep_falsy_fields.2.1 c9edu out hout rfl⟩
  · obtain ⟨out, hout⟩ : ∃ out, format_pub_entry c9pub = .ok out := ⟨_, rfl⟩
    obtain ⟨hj, ha⟩ := C9_entries_keep_falsy_fields.2.2 c9pub out hout
    exact ⟨out, hout, hj rfl, ha rfl⟩

theorem findKeywords_append {pre l : List JValue} {target : String}
    (hpre : ∀ p ∈ pre, ∃ np, getItem p "name" = .ok np ∧ isNameMatch np target = false) :
    findKeywords (pre ++ l) target = findKeywords l target := by
  induction pre with
  | nil => rfl
  | cons p pre' ih =>
    obtain ⟨np, hnp, hm⟩ := hpre p (List.mem_cons_self _ _)
    rw [List.cons_append, findKeywords, hnp]
    simp only [ebind]
    rw [if_neg (by simp [hm])]
    exact ih fun q hq => hpre q (List.mem_cons_of_mem _ hq)

theorem findKeywords_error_head {bad : JValue} {rest : List JValue} {target : String} :
    (pyGet? bad "name" = none → ∃ e, findKeywords (bad :: rest) target = .error e) ∧
    (∀ nv, pyGet? bad "name" = some nv → isNameMatch nv target = true →
      pyGet? bad "keywords" = none → ∃ e, findKeywords (bad :: rest) target = .error e) := by
  constructor
  · intro hname
    obtain ⟨e, he⟩ := getItem_err (x := bad) (k := "name") hname
    exact ⟨e, by rw [findKeywords, he]; rfl⟩
  · intro nv hnv hm hkw
    obtain ⟨e, he⟩ := getItem_err (x := bad) (k := "keywords") hkw
    refine ⟨e, ?_⟩
    rw [findKeywords, getItem_ok.mpr hnv]
    simp only [ebind]
    rw [if_pos hm]
    exact he

/-- C10: the technologies scan evaluates `skill["name"]` for every entry it
passes over, so a skills entry without a `name` placed before the first
match of any of the three group names aborts the whole construction, as does
a matching entry without `keywords`. -/
theorem C10_technologies_scan_aborts (src skv bad : JValue) (pre rest : List JValue)
    (target : String)
    (htgt : target = "Programming Languages" ∨ target = "Frameworks" ∨
      target = "Miscellaneous")
    (hsk : pyGet? src "skills" = some skv)
    (hiter : pyIter skv = .ok (pre ++ bad :: rest))
    (hpre : ∀ p ∈ pre, ∃ np, getItem p "name" = .ok np ∧ isNameMatch np target = false)
    (hbad : pyGet? bad "name" = none ∨
      (∃ nv, pyGet? bad "name" = some nv ∧ isNameMatch nv target = true ∧
        pyGet? bad "keywords" = none)) :
    ∃ msg, mkConverter src = .error msg := by
  cases hmk : mkConverter src with
  | error e => exact ⟨e, rfl⟩
  | ok out =>
    exfalso
    rw [mkConverter_ok_iff] at hmk
    obtain ⟨basics, name, location, sres, edus, exps, pubs, projs, techs, awds, nonEmpty,
      hb, hn, hloc, hsres, hed, hex, hpu, hpr, hte, haw, hne, hout⟩ := hmk
    rw [format_technologies_ok_iff] at hte
    obtain ⟨sks, lv, fv, mv, dl, df, dm, hiter', hfl, hff, hfm, hjl, hjf, hjm, htechs⟩ := hte
    rw [pyGetD_some hsk] at hiter'
    have hsks : sks = pre ++ bad :: rest := by
      have := hiter'.symm.trans hiter
      simpa using this
    subst hsks
    have herr : ∃ e, findKeywords (pre ++ bad :: rest) target = .error e := by
      rw [findKeywords_append hpre]
      rcases hbad with hb' | ⟨nv, hnv, hm, hkw⟩
      · exact findKeywords_error_head.1 hb'
      · exact findKeywords_error_head.2 nv hnv hm hkw
    obtain ⟨e, he⟩ := herr
    rcases htgt with h | h | h <;> subst h
    · simpa using hfl.symm.trans he
    · simpa using hff.symm.trans he
    · simpa using hfm.symm.trans he

/-- Witness for C10: a nameless skills entry before the match aborts, and so
does a matching group entry without keywords. -/
theorem C10_witness :
    (∃ msg, mkConverter c10src = .error msg) ∧
    (∃ msg, mkConverter c10srcKw = .error msg) := by
  constructor
  · exact C10_technologies_scan_aborts c10src
      (.arr [.obj [("keywords", .arr [.str "Go"])],
             .obj [("name", .str "Programming Languages"), ("keywords", .arr [.str "Go"])]])
      (.obj [("keywords", .arr [.str "Go"])]) []
      [.obj [("name", .str "Programming Languages"), ("keywords", .arr [.str "Go"])]]
      "Programming Languages" (Or.inl rfl) rfl rfl
      (fun p hp => absurd hp (List.not_mem_nil p)) (Or.inl rfl)
  · exact C10_technologies_scan_aborts c10srcKw
      (.arr [.obj [("name", .str "Programming Languages")]])
      (.obj [("name", .str "Programming Languages")]) [] []
      "Programming Languages" (Or.inl rfl) rfl rfl
      (fun p hp => absurd hp (List.not_mem_nil p))
      (Or.inr ⟨.str "Programming Languages", rfl, rfl, rfl⟩)

theorem section_all_entries_ok {v : JValue} {entries ys : List JValue}
    {fmt : JValue → Except String JValue}
    (hfmt : ebind (pyIter v) (mapE fmt) = .ok ys)
    (hit : pyIter v = .ok entries) :
    ∀ e ∈ entries, ∃ y, fmt e = .ok y := by
  rw [ebind_ok] at hfmt
  obtain ⟨entries', hit', hmap⟩ := hfmt
  have hsame : entries' = entries := by
    simpa using hit'.symm.trans hit
  subst hsame
  exact mapE_ok_mem hmap

theorem format_edu_entry_required {edu out : JValue} (h : format_edu_entry edu = .ok out) :
    (∃ a, pyGet? edu "institution" = some a) ∧ (∃ a, pyGet? edu "area" = some a) ∧
    (∃ a, pyGet? edu "studyType" = some a) ∧ (∃ a, pyGet? edu "startDate" = some a) := by
  rw [format_edu_entry, ebind_ok] at h
  obtain ⟨i, hi, h⟩ := h
  rw [ebind_ok] at h
  obtain ⟨a, ha, h⟩ := h
  rw [ebind_ok] at h
  obtain ⟨d, hd, h⟩ := h
  rw [ebind_ok] at h
  obtain ⟨s, hs, _⟩ := h
  exact ⟨⟨i, getItem_ok.mp hi⟩, ⟨a, getItem_ok.mp ha⟩, ⟨d, getItem_ok.mp hd⟩,
    ⟨s, getItem_ok.mp hs⟩⟩

theorem format_exp_entry_required {job out : JValue} (h : format_exp_entry job = .ok out) :
    (∃ a, pyGet? job "name" = some a) ∧ (∃ a, pyGet? job "position" = some a) ∧
    (∃ a, pyGet? job "startDate" = some a) := by
  rw [format_exp_entry, ebind_ok] at h
  obtain ⟨c, hc, h⟩ := h
  rw [ebind_ok] at h
  obtain ⟨p, hp, h⟩ := h
  rw [ebind_ok] at h
  obtain ⟨s, hs, _⟩ := h
  exact ⟨⟨c, getItem_ok.mp hc⟩, ⟨p, getItem_ok.mp hp⟩, ⟨s, getItem_ok.mp hs⟩⟩

theorem format_pub_entry_required {pub out : JValue} (h : format_pub_entry pub = .ok out) :
    (∃ a, pyGet? pub "name" = some a) ∧ (∃ a, pyGet? pub "releaseDate" = some a) := by
  rw [format_pub_entry, ebind_ok] at h
  obtain ⟨t, ht, h⟩ := h
  rw [ebind_ok] at h
  obtain ⟨d, hd, _⟩ := h
  exact ⟨⟨t, getItem_ok.mp ht⟩, ⟨d, getItem_ok.mp hd⟩⟩

theorem format_proj_entry_required {proj out : JValue} (h : format_proj_entry proj = .ok out) :
    (∃ a, pyGet? proj "name" = some a) ∧ (∃ a, pyGet? proj "startDate" = some a) := by
  rw [format_proj_entry, ebind_ok] at h
  obtain ⟨n, hn, h⟩ := h
  rw [ebind_ok] at h
  obtain ⟨s, hs, _⟩ := h
  exact ⟨⟨n, getItem_ok.mp hn⟩, ⟨s, getItem_ok.mp hs⟩⟩

theorem format_awd_entry_required {award out : JValue} (h : format_awd_entry award = .ok out) :
    (∃ a, pyGet? award "title" = some a) ∧ (∃ a, pyGet? award "awarder" = some a) := by
  rw [format_awd_entry, ebind_ok] at h
  obtain ⟨t, ht, h⟩ := h
  rw [ebind_ok] at h
  obtain ⟨w, hw, _⟩ := h
  exact ⟨⟨t, getItem_ok.mp ht⟩, ⟨w, getItem_ok.mp hw⟩⟩

theorem entry_missing_contra {src : JValue} {sect f : String} {res : List JValue}
    {fmt : JValue → Except String JValue}
    (hmiss : sectionEntryMissing src sect f)
    (hfmt : ebind (pyIter (pyGetD src sect (.arr []))) (mapE fmt) = .ok res)
    (hreq : ∀ e out, fmt e = .ok out → ∃ a, pyGet? e f = some a) : False := by
  obtain ⟨v, entries, e0, hv, hit, hmem, hnone⟩ := hmiss
  rw [pyGetD_some hv] at hfmt
  obtain ⟨y, hy⟩ := section_all_entries_ok hfmt hit e0 hmem
  obtain ⟨a, ha⟩ := hreq e0 y hy
  rw [hnone] at ha
  cases ha

/-- C3: a source whose `basics.name` is absent, or one of whose section
entries lacks a required field (education institution/area/studyType/
startDate, work name/position/startDate, publications name/releaseDate,
projects name/startDate, awards title/awarder), makes construction raise an
unhandled lookup failure, so the conversion produces no output document. -/
theorem C3_missing_required_field_aborts (src : JValue)
    (h : pyGet? (pyGetD src "basics" JValue.null) "name" = none ∨
      sectionEntryMissing src "education" "institution" ∨
      sectionEntryMissing src "education" "area" ∨
      sectionEntryMissing src "education" "studyType" ∨
      sectionEntryMissing src "education" "startDate" ∨
      sectionEntryMissing src "work" "name" ∨
      sectionEntryMissing src "work" "position" ∨
      sectionEntryMissing src "work" "startDate" ∨
      sectionEntryMissing src "publications" "name" ∨
      sectionEntryMissing src "publications" "releaseDate" ∨
      sectionEntryMissing src "projects" "name" ∨
      sectionEntryMissing src "projects" "startDate" ∨
      sectionEntryMissing src "awards" "title" ∨
      sectionEntryMissing src "awards" "awarder") :
    (∃ msg, mkConverter src = .error msg) ∧
    ∀ existing, ∃ msg2, convertPure src existing = .error msg2 := by
  have hmain : ∃ msg, mkConverter src = .error msg := by
    cases hmk : mkConverter src with
    | error e => exact ⟨e, rfl⟩
    | ok out =>
      exfalso
      rw [mkConverter_ok_iff] at hmk
      obtain ⟨basics, name, location, sres, edus, exps, pubs, projs, techs, awds, nonEmpty,
        hb, hn, hloc, hsres, hed, hex, hpu, hpr, hte, haw, hne, hout⟩ := hmk
      rcases h with hb0 | hd | hd | hd | hd | hd | hd | hd | hd | hd | hd | hd | hd | hd
      · rw [basics_eq hb] at hb0
        have hsome := getItem_ok.mp hn
        rw [hb0] at hsome
        cases hsome
      · exact entry_missing_contra hd hed fun e out hh => (format_edu_entry_required hh).1
      · exact entry_missing_contra hd hed fun e out hh => (format_edu_entry_required hh).2.1
      · exact entry_missing_contra hd hed fun e out hh => (format_edu_entry_required hh).2.2.1
      · exact entry_missing_contra hd hed fun e out hh => (format_edu_entry_required hh).2.2.2
      · exact entry_missing_contra hd hex fun e out hh => (format_exp_entry_required hh).1
      · exact entry_missing_contra hd hex fun e out hh => (format_exp_entry_required hh).2.1
      · exact entry_missing_contra hd hex fun e out hh => (format_exp_entry_required hh).2.2
      · exact entry_missing_contra hd hpu fun e out hh => (format_pub_entry_required hh).1
      · exact entry_missing_contra hd hpu fun e out hh => (format_pub_entry_required hh).2
      · exact entry_missing_contra hd hpr fun e out hh => (format_proj_entry_required hh).1
      · exact entry_missing_contra hd hpr fun e out hh => (format_proj_entry_required hh).2
      · exact entry_missing_contra hd haw fun e out hh => (format_awd_entry_required hh).1
      · exact entry_missing_contra hd haw fun e out hh => (format_awd_entry_required hh).2
  obtain ⟨msg, hmsg⟩ := hmain
  exact ⟨⟨msg, hmsg⟩, fun existing => ⟨msg, by rw [convertPure, hmsg]; rfl⟩⟩

/-- Witness for C3 at a document whose `basics` mapping has no `name`. -/
theorem C3_witness :
    pyGet? (pyGetD c3src "basics" JValue.null) "name" = none ∧
    (∃ msg, mkConverter c3src = .error msg) ∧
    ∀ existing, ∃ msg2, convertPure c3src existing = .error msg2 :=
  ⟨rfl, C3_missing_required_field_aborts c3src (Or.inl rfl)⟩

theorem mkConverter_shape {src : JValue} {c : ConvOut} (hc : mkConverter src = .ok c) :
    ∃ cvv, c.render_cv = .obj [("cv", cvv)] := by
  rw [mkConverter_ok_iff] at hc
  obtain ⟨basics, name, location, sres, edus, exps, pubs, projs, techs, awds, nonEmpty,
    hb, hn, hloc, hsres, hed, hex, hpu, hpr, hte, haw, hne, hout⟩ := hc
  subst hout
  exact ⟨_, rfl⟩

theorem lookup_filter_ne {β : Type} {l : List (String × β)} {k c : String} (hk : k ≠ c) :
    (l.filter fun q => q.1 != c).lookup k = l.lookup k := by
  induction l with
  | nil => rfl
  | cons p rest ih =>
    obtain ⟨k', v'⟩ := p
    rw [List.filter_cons]
    by_cases hkc : k' = c
    · subst hkc
      rw [if_neg (by simp)]
      have hbeq : (k == k') = false := by simpa using hk
      rw [ih]
      simp only [List.lookup, hbeq]
    · rw [if_pos (by simpa using hkc)]
      simp only [List.lookup]
      cases hb : (k == k') with
      | true => rfl
      | false => exact ih

theorem dictUpdate_nil (d : List (String × JValue)) : dictUpdate d [] = d := by
  rw [dictUpdate]
  simp only [List.filter_nil, List.append_nil, List.lookup_nil]
  induction d with
  | nil => rfl
  | cons p rest ih => rw [List.map_cons, ih]

theorem dictUpdate_single {cvv : JValue} {u : List (String × JValue)}
    (hu : ∀ q ∈ u, q.1 ≠ "cv") :
    dictUpdate [("cv", cvv)] u = ("cv", cvv) :: u := by
  rw [dictUpdate]
  have h1 : u.lookup "cv" = none := lookup_eq_none_of hu
  have h2 : u.filter (fun q => !(List.any [("cv", cvv)] fun p => p.1 == q.1)) = u := by
    apply List.filter_eq_self.mpr
    intro q hq
    have hne := hu q hq
    simp only [List.any, Bool.or_false, Bool.not_eq_eq_eq_not, Bool.not_true]
    simpa using fun hc => hne hc.symm
  rw [h2]
  simp only [List.map, h1]
  rfl

theorem mergeStep_obj_single {cvv : JValue} {exf : List (String × JValue)} :
    mergeStep (.obj [("cv", cvv)]) (.obj exf) =
      .ok (.obj (("cv", cvv) :: exf.filter (fun q => q.1 != "cv"))) := by
  cases exf with
  | nil => rfl
  | cons hd tl =>
    have h0 : mergeStep (.obj [("cv", cvv)]) (.obj (hd :: tl)) =
        .ok (.obj (dictUpdate [("cv", cvv)] ((hd :: tl).filter fun q => q.1 != "cv"))) := rfl
    rw [h0, dictUpdate_single (fun q hq => by simpa using List.of_mem_filter hq)]

theorem mergeStep_falsy {rc : List (String × JValue)} {e : JValue} (he : truthy e = false) :
    mergeStep (.obj rc) e = .ok (.obj rc) := by
  rw [mergeStep, he]
  simp only [Bool.false_eq_true, if_false]
  rw [show mergeItems (.obj rc) (.obj []) = .ok (.obj (dictUpdate rc [])) from rfl,
    dictUpdate_nil]

theorem mergeStep_single_ok {cvv merged e : JValue}
    (h : mergeStep (.obj [("cv", cvv)]) e = .ok merged) :
    ∃ tail, merged = .obj (("cv", cvv) :: tail) ∧ ∀ q ∈ tail, q.1 ≠ "cv" := by
  by_cases ht : truthy e = true
  · rw [mergeStep, if_pos ht] at h
    cases e with
    | obj exf =>
      rw [show mergeItems (.obj [("cv", cvv)]) (.obj exf) =
          .ok (.obj (dictUpdate [("cv", cvv)] (exf.filter fun q => q.1 != "cv"))) from rfl] at h
      rw [dictUpdate_single (fun q hq => by simpa using List.of_mem_filter hq)] at h
      simp only [Except.ok.injEq] at h
      exact ⟨exf.filter (fun q => q.1 != "cv"), h.symm,
        fun q hq => by simpa using List.of_mem_filter hq⟩
    | null => exact Except.noConfusion h
    | bool b => exact Except.noConfusion h
    | num n => exact Except.noConfusion h
    | str s => exact Except.noConfusion h
    | arr xs => exact Except.noConfusion h
  · rw [mergeStep_falsy (by simpa using ht)] at h
    simp only [Except.ok.injEq] at h
    exact ⟨[], h.symm, fun q hq => absurd hq (List.not_mem_nil q)⟩

/-- C2: merging a freshly computed target document with an existing
destination (read as a mapping) copies every non-`cv` key of the existing
document into the result, keeps the transformer's `cv` for the `cv` key, is
the identity when the destination parses to something falsy, and is skipped
entirely when the destination is absent. -/
theorem C2_merge_keeps_existing_keys (src : JValue) (c : ConvOut)
    (hc : mkConverter src = .ok c) (exf : List (String × JValue)) :
    ∃ cvv merged,
      c.render_cv = .obj [("cv", cvv)] ∧
      mergeStep c.render_cv (.obj exf) = .ok (.obj merged) ∧
      merged.lookup "cv" = some cvv ∧
      (∀ k, k ≠ "cv" → merged.lookup k = exf.lookup k) ∧
      (∀ e, truthy e = false → mergeStep c.render_cv e = .ok c.render_cv) ∧
      convertPure src none = .ok c := by
  obtain ⟨cvv, hshape⟩ := mkConverter_shape hc
  refine ⟨cvv, ("cv", cvv) :: exf.filter (fun q => q.1 != "cv"), hshape, ?_, ?_, ?_, ?_, ?_⟩
  · rw [hshape]
    exact mergeStep_obj_single
  · rfl
  · intro k hk
    have hbeq : (k == "cv") = false := by simpa using hk
    simp only [List.lookup, hbeq]
    exact lookup_filter_ne hk
  · intro e he
    rw [hshape]
    exact mergeStep_falsy he
  · rw [convertPure, hc]
    rfl

/-- Witness for C2: an existing destination with a `design` key and a stale
`cv` key; the merged result keeps the fresh `cv` and copies `design`. -/
theorem C2_witness :
    ∃ c cvv merged, mkConverter c2src = .ok c ∧
      c.render_cv = .obj [("cv", cvv)] ∧
      mergeStep c.render_cv (.obj [("design", .str "x"), ("cv", .str "old")]) =
        .ok (.obj merged) ∧
      merged.lookup "cv" = some cvv ∧
      merged.lookup "design" = some (.str "x") := by
  obtain ⟨c, hc⟩ : ∃ c, mkConverter c2src = .ok c := ⟨_, rfl⟩
  obtain ⟨cvv, merged, h1, h2, h3, h4, _, _⟩ :=
    C2_merge_keeps_existing_keys c2src c hc [("design", .str "x"), ("cv", .str "old")]
  refine ⟨c, cvv, merged, hc, h1, h2, h3, ?_⟩
  rw [h4 "design" (by decide)]
  rfl

/-- C8: rerunning the conversion on the same source into the destination
produced by a first run succeeds, leaves the `cv` subtree identical, and
keeps every non-`cv` top-level key of the first run's output with its value
unchanged. -/
theorem C8_second_run_stable (src : JValue) (ex : Option JValue) (o1 : ConvOut)
    (h1 : convertPure src ex = .ok o1) :
    ∃ o2, convertPure src (some o1.render_cv) = .ok o2 ∧
      pyGet? o2.render_cv "cv" = pyGet? o1.render_cv "cv" ∧
      ∀ k v, k ≠ "cv" → pyGet? o1.render_cv k = some v → pyGet? o2.render_cv k = some v := by
  rw [convertPure, ebind_ok] at h1
  obtain ⟨c, hc, hrest⟩ := h1
  obtain ⟨cvv, hcv⟩ := mkConverter_shape hc
  have hshape1 : ∃ tail, o1.render_cv = .obj (("cv", cvv) :: tail) ∧ ∀ q ∈ tail, q.1 ≠ "cv" := by
    cases ex with
    | none =>
      simp only [Except.ok.injEq] at hrest
      subst hrest
      exact ⟨[], by rw [hcv], fun q hq => absurd hq (List.not_mem_nil q)⟩
    | some e =>
      rw [ebind_ok] at hrest
      obtain ⟨merged, hm, ho⟩ := hrest
      simp only [Except.ok.injEq] at ho
      subst ho
      rw [hcv] at hm
      exact mergeStep_single_ok hm
  obtain ⟨tail, ho1, htail⟩ := hshape1
  have hfilter : (("cv", cvv) :: tail).filter (fun q => q.1 != "cv") = tail := by
    rw [List.filter_cons, if_neg (by simp)]
    exact List.filter_eq_self.mpr fun q hq => by simpa using htail q hq
  refine ⟨⟨o1.render_cv, c.notices⟩, ?_, rfl, fun k v hk hv => hv⟩
  rw [convertPure, ebind_ok]
  refine ⟨c, hc, ?_⟩
  rw [ebind_ok]
  refine ⟨o1.render_cv, ?_, rfl⟩
  rw [hcv, ho1, mergeStep_obj_single, hfilter]

/-- Witness for C8: a second run over a destination holding the first run's
output keeps both the `cv` and the preserved `design` key unchanged. -/
theorem C8_witness :
    ∃ o1 o2, convertPure c8src (some c8existing) = .ok o1 ∧
      convertPure c8src (some o1.render_cv) = .ok o2 ∧
      pyGet? o2.render_cv "cv" = pyGet? o1.render_cv "cv" ∧
      pyGet? o1.render_cv "design" = some (.obj [("theme", .str "classic")]) ∧
      pyGet? o2.render_cv "design" = some (.obj [("theme", .str "classic")]) := by
  obtain ⟨o1, h1⟩ : ∃ o1, convertPure c8src (some c8existing) = .ok o1 := ⟨_, rfl⟩
  obtain ⟨o2, h2, hcveq, hkeys⟩ := C8_second_run_stable c8src (some c8existing) o1 h1
  have hdes : pyGet? o1.render_cv "design" = some (.obj [("theme", .str "classic")]) := by
    have h1' := h1
    rw [convertPure, ebind_ok] at h1'
    obtain ⟨c, hc, hrest⟩ := h1'
    rw [ebind_ok] at hrest
    obtain ⟨merged, hm, ho⟩ := hrest
    simp only [Except.ok.injEq] at ho
    subst ho
    obtain ⟨cvv, hcv⟩ := mkConverter_shape hc
    rw [hcv] at hm
    have hstep : mergeStep (.obj [("cv", cvv)]) (.obj [("design", .obj [("theme", .str "classic")])])
        = .ok (.obj (("cv", cvv) ::
            List.filter (fun q => q.1 != "cv") [("design", .obj [("theme", .str "classic")])])) :=
      mergeStep_obj_single
    have hconc := hstep.symm.trans hm
    simp only [Except.ok.injEq] at hconc
    rw [← hconc]
    rfl
  exact ⟨o1, o2, h1, h2, hcveq, hdes, hkeys "design" _ (by decide) hdes⟩
